import Mathlib

/-!
Verification development for the KhamarBot retrieval subsystem
(`modules/index_builder.py` and `modules/retriever.py`).

The Python code is shallowly embedded as executable Lean definitions:

* Strings processed character-by-character (`_split_text`) are modelled as
  `List Char`; string assembly uses `String`.
* float32 embedding vectors are modelled as `List ℚ` (exact rationals in
  place of floats; every property proved here is structural and does not
  depend on rounding).
* The external Azure OpenAI embedding endpoint is an oracle parameter
  `eb : List String → Option (List (List ℚ))`; `none` models the provider
  call raising an exception, `some rs` models a successful response whose
  `data` field yields the rows `rs`.
* FAISS `IndexFlatL2` is modelled by the list of stored vectors; its exact
  k-nearest-neighbour `search` is implemented (squared-L2, ties by index,
  `-1` padding when fewer than `k` vectors exist, as FAISS does).
* sklearn `cosine_similarity(query, reconstruct(idx))` is an oracle
  `sim : Nat → ℚ` (the cosine value involves irrational square roots, so
  the float the library returns is abstracted; all claims about the
  retrieval loop hold for every such oracle, which is strictly stronger).
* The filesystem of `save_to_disk` / `_load_index_and_metadata` is modelled
  by `Option`-valued artifact slots (`none` = file absent / unset index).
-/

namespace KB

/-! ## Text chunker (`KnowledgeEmbedder._split_text`) -/

/-- Python `str.strip()` (whitespace from both ends).  Python strips all
Unicode whitespace; `Char.isWhitespace` covers the ASCII whitespace that
matters here. -/
def strip (l : List Char) : List Char :=
  ((l.dropWhile Char.isWhitespace).reverse.dropWhile Char.isWhitespace).reverse

/-- Greatest `i < bound` satisfying `p`, scanning downward: the search core
of Python `str.rfind`. -/
def rfindAux (p : Nat → Bool) : Nat → Option Nat
  | 0 => none
  | i + 1 => if p i then some i else rfindAux p i

/-- `text.rfind(c1 + c2, start, stop)` for a two-character pattern: the
greatest `i` with `start ≤ i`, `i + 2 ≤ stop` and the pattern at `i`
(`none` for Python's `-1`). -/
def rfind2 (text : List Char) (c1 c2 : Char) (start stop : Nat) : Option Nat :=
  rfindAux (fun i =>
    decide (start ≤ i) && decide (i + 2 ≤ stop) &&
    (text.get? i == some c1) && (text.get? (i + 1) == some c2)) stop

/-- `text.rfind(c, start, stop)` for a one-character pattern. -/
def rfind1 (text : List Char) (c : Char) (start stop : Nat) : Option Nat :=
  rfindAux (fun i =>
    decide (start ≤ i) && decide (i + 1 ≤ stop) && (text.get? i == some c)) stop

/-- The sentence-boundary search chain of `_split_text`: try `'. '`, then
the Bengali full stop `'। '`, then `' '`. -/
def findBoundary (text : List Char) (start stop : Nat) : Option Nat :=
  match rfind2 text '.' ' ' start stop with
  | some i => some i
  | none =>
    match rfind2 text '।' ' ' start stop with
    | some i => some i
    | none => rfind1 text ' ' start stop

/-- The split-point chosen by one non-final iteration of `_split_text`: if
no boundary is found, or the found boundary lands in the first 70% of the
window, hard-cut at `start + chunk_size`.  Python compares against the
float `start + chunk_size * 0.7`; at the default `chunk_size = 800` that
float is exactly `560.0`, which `start + (chunk_size * 7) / 10` reproduces. -/
def chooseSplit (text : List Char) (chunk_size start : Nat) : Nat :=
  match findBoundary text start (start + chunk_size) with
  | none => start + chunk_size
  | some i => if i < start + (chunk_size * 7) / 10 then start + chunk_size else i

/-- One window of `_split_text`: `(start, stop, stripped?)`.  The chunk a
window denotes is `text[start:stop]`, `.strip()`-ed exactly when the window
comes from a non-final iteration. -/
abbrev Window := Nat × Nat × Bool

/-- The `while start < len(text)` loop of `_split_text`, returning the
windows of the produced chunks.  The loop always terminates (proved below);
the fuel only makes the recursion well-founded, and `none` (fuel exhausted)
is never returned when the caller supplies `text.length + 1` fuel. -/
def splitLoop (text : List Char) (chunk_size chunk_overlap : Nat) :
    Nat → Nat → Option (List Window)
  | 0, _ => none
  | fuel + 1, start =>
    if start < text.length then
      if text.length ≤ start + chunk_size then
        some [(start, text.length, false)]
      else
        match splitLoop text chunk_size chunk_overlap fuel
            (chooseSplit text chunk_size start - chunk_overlap) with
        | none => none
        | some ws => some ((start, chooseSplit text chunk_size start, true) :: ws)
    else
      some []

/-- Windows of `_split_text`: the `len(text) <= chunk_size` early return
gives the single unstripped window; otherwise the loop runs from `start = 0`. -/
def splitWindows (text : List Char) (chunk_size chunk_overlap : Nat) :
    Option (List Window) :=
  if text.length ≤ chunk_size then some [(0, text.length, false)]
  else splitLoop text chunk_size chunk_overlap (text.length + 1) 0

/-- The chunk text a window denotes. -/
def render (text : List Char) : Window → List Char
  | (s, e, stripped) =>
    let raw := (text.drop s).take (e - s)
    if stripped then strip raw else raw

/-- `KnowledgeEmbedder._split_text(text, chunk_size, chunk_overlap)`. -/
def splitText (text : List Char) (chunk_size chunk_overlap : Nat) :
    Option (List (List Char)) :=
  (splitWindows text chunk_size chunk_overlap).map (List.map (render text))

/-! ## Embedding adapter (`KnowledgeEmbedder._get_embeddings`) -/

/-- The embedding provider: `none` models `embeddings.create` raising,
`some rs` a successful response with rows `rs`. -/
abbrev EmbedOracle := List String → Option (List (List ℚ))

/-- `KnowledgeEmbedder._get_embeddings(texts)`: process `texts` in batches
of 16; a successful provider call contributes its response rows, a raising
call is caught and contributes `np.zeros(1536)` once per item of the failed
batch (the dimension 1536 is hard-coded in the source). -/
def getEmbeddings (eb : EmbedOracle) : List String → List (List ℚ)
  | [] => []
  | t :: ts =>
    let batch := (t :: ts).take 16
    (match eb batch with
     | some rs => rs
     | none => List.replicate batch.length (List.replicate 1536 0)) ++
    getEmbeddings eb ((t :: ts).drop 16)
termination_by texts => texts.length
decreasing_by simp [List.length_drop]; omega

/-! ## Index builder (`KnowledgeEmbedder.process_json`, `save_to_disk`) -/

/-- One parsed entry of a knowledge JSON file. -/
structure Entry where
  content : String
  header : String
  page : String
deriving DecidableEq, Repr

/-- One row of the metadata table built by `process_json`. -/
structure ChunkMeta where
  ki_topic : String
  ki_text : String
  source_file : String
  page : String
  chunk_index : Nat
  total_chunks : Nat
deriving DecidableEq, Repr

/-- The `text_with_context` string assembled per entry (empty `header` /
`page` fields are falsy in Python and leave their line out). -/
def entryText (filename : String) (e : Entry) : String :=
  "File: " ++ filename ++
  (if e.header ≠ "" then "\nHeader: " ++ e.header else "") ++
  (if e.page ≠ "" then "\nPage: " ++ e.page else "") ++
  "\nContent: " ++ e.content

/-- The `(combined_text, metadata)` rows one entry contributes: its context
text is chunked, and every chunk yields one embedding input
`f"{header or filename}. {chunk}"` plus one metadata row.  `splitText` is
total for the default parameters (proved below), so the `getD` default is
never taken. -/
def entryRows (filename : String) (e : Entry) : List (String × ChunkMeta) :=
  let topic := if e.header ≠ "" then e.header else filename
  let chunks := (splitText (entryText filename e).data 800 100).getD []
  chunks.enum.map (fun p =>
    (topic ++ ". " ++ p.2.asString,
     { ki_topic := topic
       ki_text := p.2.asString
       source_file := filename
       page := e.page
       chunk_index := p.1
       total_chunks := chunks.length }))

/-- Rows contributed by one JSON file, `(filename, parse result)`: a file
whose `json.load` or processing raises (`none`) is logged and skipped. -/
def fileRows : String × Option (List Entry) → List (String × ChunkMeta)
  | (_, none) => []
  | (fn, some entries) => entries.flatMap (entryRows fn)

/-- `all_texts` / `all_metadata` accumulated over all JSON files. -/
def buildRows (files : List (String × Option (List Entry))) :
    List (String × ChunkMeta) :=
  files.flatMap fileRows

/-- The embedder's state after `process_json`: the FAISS index (its vector
rows) and the parallel metadata table. -/
structure BuildResult where
  index : List (List ℚ)
  metadata : List ChunkMeta
deriving DecidableEq, Repr

/-- `KnowledgeEmbedder.process_json()`: early `return` (leaving
`self.index = None`) when no JSON files are found or no text is extracted;
otherwise embed every combined text and add all vectors to a fresh flat
index, storing the metadata table alongside. -/
def processJson (eb : EmbedOracle) (files : List (String × Option (List Entry))) :
    Option BuildResult :=
  if files.isEmpty then none
  else
    let rows := buildRows files
    if rows.isEmpty then none
    else some { index := getEmbeddings eb (rows.map Prod.fst)
                metadata := rows.map Prod.snd }

/-- `KnowledgeEmbedder.save_to_disk()`: `faiss.write_index(self.index, ...)`
raises `TypeError` when `self.index` is still `None` (nothing is persisted);
otherwise both artifacts are written. -/
def saveToDisk : Option BuildResult → Except String (List (List ℚ) × List ChunkMeta)
  | none => Except.error "write_index: index is None"
  | some r => Except.ok (r.index, r.metadata)

/-! ## Retriever (`VectorRetriever`) -/

/-- Squared Euclidean distance, the native metric of `IndexFlatL2`. -/
def sqDist (u v : List ℚ) : ℚ :=
  (List.zipWith (fun a b => (a - b) ^ 2) u v).sum

/-- Insert into a sorted list (stable insertion sort, used to model the
ordering of FAISS search results). -/
def insertLe (le : Nat → Nat → Bool) (a : Nat) : List Nat → List Nat
  | [] => [a]
  | b :: l => if le a b then a :: b :: l else b :: insertLe le a l

/-- Insertion sort by `le`. -/
def sortLe (le : Nat → Nat → Bool) : List Nat → List Nat
  | [] => []
  | a :: l => insertLe le a (sortLe le l)

/-- `self.index.search(query, k)` of a FAISS flat L2 index holding `vecs`:
the stored positions ordered by increasing squared-L2 distance to the query
(ties by position), truncated to `k`, padded with the label `-1` when the
index holds fewer than `k` vectors. -/
def faissSearch (vecs : List (List ℚ)) (q : List ℚ) (k : Nat) : List Int :=
  let order := sortLe (fun i j =>
    decide (sqDist (vecs.getD i []) q < sqDist (vecs.getD j []) q ∨
      (sqDist (vecs.getD i []) q = sqDist (vecs.getD j []) q ∧ i ≤ j)))
    (List.range vecs.length)
  (order.take k).map Int.ofNat ++ List.replicate (k - vecs.length) (-1)

/-- The candidate loop of `VectorRetriever.retrieve`: for each search
label, keep it only if `0 <= idx < len(self.knowledge_data)`; re-score by
cosine similarity (`sim idx`, the value sklearn returns for
`cosine_similarity(query_embedding, self.index.reconstruct(idx))`) and
append `{**self.knowledge_data[idx], "similarity": sim}` when the score
clears the threshold. -/
def retrieveLoop {α : Type} (kn : List α) (sim : Nat → ℚ) (thr : ℚ) :
    List Int → List (α × ℚ) → List (α × ℚ)
  | [], results => results
  | idx :: rest, results =>
    if h : 0 ≤ idx ∧ idx.toNat < kn.length then
      if thr ≤ sim idx.toNat then
        retrieveLoop kn sim thr rest
          (results ++ [(kn.get ⟨idx.toNat, h.2⟩, sim idx.toNat)])
      else
        retrieveLoop kn sim thr rest results
    else
      retrieveLoop kn sim thr rest results

/-- `VectorRetriever.retrieve(query, top_k, similarity_threshold)` with the
query already embedded as `q`. -/
def retrieve {α : Type} (vecs : List (List ℚ)) (kn : List α) (sim : Nat → ℚ)
    (q : List ℚ) (top_k : Nat) (thr : ℚ) : List (α × ℚ) :=
  retrieveLoop kn sim thr (faissSearch vecs q top_k) []

/-- Follows the spec's words (step 3/4 of `retrieve`): a candidate position
is kept iff it is in range and its cosine similarity clears the threshold,
in which case the metadata record is annotated with that similarity. -/
def specKeep {α : Type} (kn : List α) (sim : Nat → ℚ) (thr : ℚ) (idx : Int) :
    Option (α × ℚ) :=
  if h : 0 ≤ idx ∧ idx.toNat < kn.length then
    if thr ≤ sim idx.toNat then some (kn.get ⟨idx.toNat, h.2⟩, sim idx.toNat)
    else none
  else none

/-- One paragraph of the context block built by `as_tool` (Python renders
the similarity with `:.2f`; the numeric rendering is abstracted by
`toString`, which no claim inspects). -/
def formatDoc (i : Nat) (doc : ChunkMeta × ℚ) : String :=
  let m := doc.1
  let s0 := "Document " ++ toString (i + 1) ++ " (Similarity: " ++
    toString doc.2 ++ "):\n" ++ "Topic: " ++ m.ki_topic ++ "\n"
  let s1 := if m.source_file ≠ "" then s0 ++ "Source: " ++ m.source_file ++ "\n" else s0
  let s2 := if m.page ≠ "" ∧ m.page ≠ "None" then s1 ++ "Page: " ++ m.page ++ "\n" else s1
  let s3 := if m.total_chunks ≠ 0 then
      s2 ++ "Part: " ++ toString (m.chunk_index + 1) ++ " of " ++
      toString m.total_chunks ++ "\n"
    else s2
  s3 ++ "Content: " ++ m.ki_text

/-- The `"\n\n".join(context_parts)` block over the surviving documents. -/
def formatContext (docs : List (ChunkMeta × ℚ)) : String :=
  String.intercalate "\n\n" (docs.enum.map (fun p => formatDoc p.1 p.2))

/-- `VectorRetriever.as_tool(query)`: retrieve with `top_k=5` and
`similarity_threshold=0.4`, return the fixed sentinel when nothing
survives, the context block otherwise. -/
def asTool (vecs : List (List ℚ)) (kn : List ChunkMeta) (sim : Nat → ℚ)
    (q : List ℚ) : String :=
  if (retrieve vecs kn sim q 5 (2 / 5)).isEmpty then
    "No relevant documents found in knowledge base."
  else formatContext (retrieve vecs kn sim q 5 (2 / 5))

/-- `VectorRetriever._load_index_and_metadata()`, called from `__init__`:
`none` in an artifact slot models the file being absent
(`os.path.exists` false), and the raised `FileNotFoundError` is the
`Except.error`.  Construction yields a usable (`Ready`) retriever exactly
when it returns `Except.ok`. -/
def loadIndexAndMetadata (indexFile : Option (List (List ℚ)))
    (metadataFile : Option (List ChunkMeta)) :
    Except String (List (List ℚ) × List ChunkMeta) :=
  match indexFile with
  | none => Except.error "FAISS index not found"
  | some idx =>
    match metadataFile with
    | none => Except.error "Metadata file not found"
    | some kn => Except.ok (idx, kn)

/-! ## Helper lemmas: chunker -/

lemma rfindAux_eq_some {p : Nat → Bool} :
    ∀ {n i : Nat}, rfindAux p n = some i → p i = true ∧ i < n := by
  intro n
  induction n with
  | zero => intro i h; simp [rfindAux] at h
  | succ m ih =>
    intro i h
    rw [rfindAux] at h
    by_cases hp : p m
    · rw [if_pos hp] at h
      cases h
      exact ⟨hp, Nat.lt_succ_self m⟩
    · rw [if_neg hp] at h
      obtain ⟨h1, h2⟩ := ih h
      exact ⟨h1, Nat.lt_succ_of_lt h2⟩

lemma rfind2_bounds {text : List Char} {c1 c2 : Char} {start stop i : Nat}
    (h : rfind2 text c1 c2 start stop = some i) : start ≤ i ∧ i + 2 ≤ stop := by
  have hp := (rfindAux_eq_some h).1
  simp only [Bool.and_eq_true, decide_eq_true_eq] at hp
  exact ⟨hp.1.1.1, hp.1.1.2⟩

lemma rfind1_bounds {text : List Char} {c : Char} {start stop i : Nat}
    (h : rfind1 text c start stop = some i) : start ≤ i ∧ i + 1 ≤ stop := by
  have hp := (rfindAux_eq_some h).1
  simp only [Bool.and_eq_true, decide_eq_true_eq] at hp
  exact ⟨hp.1.1, hp.1.2⟩

lemma findBoundary_bounds {text : List Char} {start stop i : Nat}
    (h : findBoundary text start stop = some i) : start ≤ i ∧ i + 1 ≤ stop := by
  unfold findBoundary at h
  cases h1 : rfind2 text '.' ' ' start stop with
  | some j =>
    rw [h1] at h; cases h
    have := rfind2_bounds h1
    omega
  | none =>
    rw [h1] at h
    cases h2 : rfind2 text '।' ' ' start stop with
    | some j =>
      rw [h2] at h; cases h
      have := rfind2_bounds h2
      omega
    | none =>
      rw [h2] at h
      have := rfind1_bounds h
      omega

lemma chooseSplit_le (text : List Char) (cs start : Nat) :
    chooseSplit text cs start ≤ start + cs := by
  unfold chooseSplit
  cases h : findBoundary text start (start + cs) with
  | none => exact Nat.le_refl _
  | some i =>
    have := findBoundary_bounds h
    dsimp only
    by_cases hi : i < start + (cs * 7) / 10
    · rw [if_pos hi]
    · rw [if_neg hi]
      omega

lemma chooseSplit_ge (text : List Char) (cs start : Nat) :
    start + (cs * 7) / 10 ≤ chooseSplit text cs start := by
  have hth : (cs * 7) / 10 ≤ cs := by omega
  unfold chooseSplit
  cases h : findBoundary text start (start + cs) with
  | none => dsimp only; omega
  | some i =>
    dsimp only
    by_cases hi : i < start + (cs * 7) / 10
    · rw [if_pos hi]; omega
    · rw [if_neg hi]; omega

lemma splitLoop_isSome {text : List Char} {cs ov : Nat}
    (hov : ov < (cs * 7) / 10) :
    ∀ fuel start, start < text.length → text.length ≤ start + fuel →
      (splitLoop text cs ov fuel start).isSome := by
  intro fuel
  induction fuel with
  | zero => intro start h1 h2; omega
  | succ f ih =>
    intro start h1 h2
    rw [splitLoop, if_pos h1]
    by_cases hfin : text.length ≤ start + cs
    · rw [if_pos hfin]; rfl
    · rw [if_neg hfin]
      have hge := chooseSplit_ge text cs start
      have hle := chooseSplit_le text cs start
      have h3 : chooseSplit text cs start - ov < text.length := by omega
      have h4 : text.length ≤ (chooseSplit text cs start - ov) + f := by omega
      have h5 := ih (chooseSplit text cs start - ov) h3 h4
      cases hrec : splitLoop text cs ov f (chooseSplit text cs start - ov) with
      | none => rw [hrec] at h5; simp at h5
      | some ws => rfl

lemma splitLoop_width {text : List Char} {cs ov : Nat} :
    ∀ fuel start ws, splitLoop text cs ov fuel start = some ws →
      ∀ w ∈ ws, w.2.1 ≤ w.1 + cs ∧ w.2.1 ≤ text.length := by
  intro fuel
  induction fuel with
  | zero => intro start ws h; simp [splitLoop] at h
  | succ f ih =>
    intro start ws h
    rw [splitLoop] at h
    by_cases h1 : start < text.length
    · rw [if_pos h1] at h
      by_cases hfin : text.length ≤ start + cs
      · rw [if_pos hfin] at h
        cases h
        intro w hw
        rw [List.mem_singleton] at hw
        subst hw
        exact ⟨hfin, Nat.le_refl _⟩
      · rw [if_neg hfin] at h
        cases hrec : splitLoop text cs ov f (chooseSplit text cs start - ov) with
        | none => rw [hrec] at h; cases h
        | some ws' =>
          rw [hrec] at h
          cases h
          intro w hw
          rcases List.mem_cons.mp hw with hw | hw
          · subst hw
            have := chooseSplit_le text cs start
            refine ⟨?_, ?_⟩
            · show chooseSplit text cs start ≤ start + cs
              exact this
            · show chooseSplit text cs start ≤ text.length
              omega
          · exact ih _ _ hrec w hw
    · rw [if_neg h1] at h
      cases h
      intro w hw
      cases hw

lemma splitLoop_cover {text : List Char} {cs ov : Nat} :
    ∀ fuel start ws, splitLoop text cs ov fuel start = some ws →
      ∀ p, start ≤ p → p < text.length → ∃ w ∈ ws, w.1 ≤ p ∧ p < w.2.1 := by
  intro fuel
  induction fuel with
  | zero => intro start ws h; simp [splitLoop] at h
  | succ f ih =>
    intro start ws h
    rw [splitLoop] at h
    by_cases h1 : start < text.length
    · rw [if_pos h1] at h
      by_cases hfin : text.length ≤ start + cs
      · rw [if_pos hfin] at h
        cases h
        intro p hp1 hp2
        exact ⟨(start, text.length, false), List.mem_singleton.mpr rfl, hp1, hp2⟩
      · rw [if_neg hfin] at h
        cases hrec : splitLoop text cs ov f (chooseSplit text cs start - ov) with
        | none => rw [hrec] at h; cases h
        | some ws' =>
          rw [hrec] at h
          cases h
          intro p hp1 hp2
          by_cases hps : p < chooseSplit text cs start
          · exact ⟨(start, chooseSplit text cs start, true),
              List.mem_cons_self _ _, hp1, hps⟩
          · have hstart : chooseSplit text cs start - ov ≤ p := by omega
            obtain ⟨w, hw, hw1, hw2⟩ := ih _ _ hrec p hstart hp2
            exact ⟨w, List.mem_cons_of_mem _ hw, hw1, hw2⟩
    · rw [if_neg h1] at h
      cases h
      intro p hp1 hp2
      omega

lemma dropWhile_length_le (p : Char → Bool) (l : List Char) :
    (l.dropWhile p).length ≤ l.length := by
  induction l with
  | nil => exact Nat.le_refl _
  | cons a l ih =>
    rw [List.dropWhile_cons]
    by_cases h : p a
    · rw [if_pos h]; exact Nat.le_succ_of_le ih
    · rw [if_neg h]

lemma strip_length_le (l : List Char) : (strip l).length ≤ l.length := by
  unfold strip
  have h1 := dropWhile_length_le Char.isWhitespace l
  have h2 := dropWhile_length_le Char.isWhitespace
    (l.dropWhile Char.isWhitespace).reverse
  simp only [List.length_reverse] at h1 h2 ⊢
  omega

lemma render_length_le {text : List Char} {w : Window} (hw : w.2.1 ≤ w.1 + cs) :
    (render text w).length ≤ cs := by
  obtain ⟨s, e, b⟩ := w
  simp only at hw
  unfold render
  have hraw : ((text.drop s).take (e - s)).length ≤ cs := by
    rw [List.length_take]
    omega
  cases b
  · simpa using hraw
  · simp only [if_pos]
    exact le_trans (strip_length_le _) hraw

/-! ## Helper lemmas: embedding adapter and builder -/

lemma getEmbeddings_length {eb : EmbedOracle}
    (hlen : ∀ b r, eb b = some r → r.length = b.length) :
    ∀ texts : List String, (getEmbeddings eb texts).length = texts.length := by
  intro texts
  induction texts using getEmbeddings.induct eb with
  | case1 => rw [getEmbeddings]; rfl
  | case2 t ts ih =>
    rw [getEmbeddings]
    cases heb : eb ((t :: ts).take 16) with
    | some rs =>
      simp only [heb, List.length_append, ih, List.length_drop]
      rw [hlen _ _ heb]
      simp only [List.length_take, List.length_cons]
      omega
    | none =>
      simp only [heb, List.length_append, List.length_replicate, ih,
        List.length_drop, List.length_take, List.length_cons]
      omega

lemma getEmbeddings_allFail :
    ∀ texts : List String, getEmbeddings (fun _ => none) texts =
      List.replicate texts.length (List.replicate 1536 (0 : ℚ)) := by
  intro texts
  induction texts using getEmbeddings.induct (fun _ => none) with
  | case1 => rw [getEmbeddings]; rfl
  | case2 t ts ih =>
    rw [getEmbeddings]
    simp only [ih, List.length_drop]
    rw [← List.replicate_add]
    congr 1
    simp only [List.length_take, List.length_cons]
    omega

lemma getEmbeddings_mem {eb : EmbedOracle} :
    ∀ (texts : List String) (v : List ℚ), v ∈ getEmbeddings eb texts →
      (∃ b rs, eb b = some rs ∧ v ∈ rs) ∨ v = List.replicate 1536 (0 : ℚ) := by
  intro texts
  induction texts using getEmbeddings.induct eb with
  | case1 => intro v hv; rw [getEmbeddings] at hv; cases hv
  | case2 t ts ih =>
    intro v hv
    rw [getEmbeddings] at hv
    rcases List.mem_append.mp hv with hv | hv
    · cases heb : eb ((t :: ts).take 16) with
      | some rs =>
        rw [heb] at hv
        exact Or.inl ⟨(t :: ts).take 16, rs, heb, hv⟩
      | none =>
        rw [heb] at hv
        exact Or.inr (List.mem_replicate.mp hv).2
    · exact ih v hv

lemma processJson_some {eb : EmbedOracle}
    {files : List (String × Option (List Entry))} {res : BuildResult}
    (hlen : ∀ b r, eb b = some r → r.length = b.length)
    (h : processJson eb files = some res) :
    res.index.length = res.metadata.length ∧ 1 ≤ res.metadata.length := by
  unfold processJson at h
  by_cases hf : files.isEmpty
  · rw [if_pos hf] at h; cases h
  · rw [if_neg hf] at h
    by_cases hr : (buildRows files).isEmpty
    · rw [if_pos hr] at h; cases h
    · rw [if_neg hr] at h
      cases h
      refine ⟨?_, ?_⟩
      · simp only [getEmbeddings_length hlen, List.length_map]
      · simp only [List.length_map]
        cases hb : buildRows files with
        | nil => rw [hb] at hr; exact absurd rfl hr
        | cons a l => simp

/-! ## Helper lemmas: retriever -/

lemma retrieveLoop_eq {α : Type} (kn : List α) (sim : Nat → ℚ) (thr : ℚ) :
    ∀ (idxs : List Int) (acc : List (α × ℚ)),
      retrieveLoop kn sim thr idxs acc =
        acc ++ idxs.filterMap (specKeep kn sim thr) := by
  intro idxs
  induction idxs with
  | nil => intro acc; simp [retrieveLoop]
  | cons idx rest ih =>
    intro acc
    rw [retrieveLoop]
    by_cases h : 0 ≤ idx ∧ idx.toNat < kn.length
    · rw [dif_pos h]
      by_cases hs : thr ≤ sim idx.toNat
      · rw [if_pos hs, ih, List.filterMap_cons]
        unfold specKeep
        rw [dif_pos h, if_pos hs]
        simp
      · rw [if_neg hs, ih, List.filterMap_cons]
        unfold specKeep
        rw [dif_pos h, if_neg hs]
    · rw [dif_neg h, ih, List.filterMap_cons]
      unfold specKeep
      rw [dif_neg h]

lemma retrieve_eq {α : Type} (vecs : List (List ℚ)) (kn : List α)
    (sim : Nat → ℚ) (q : List ℚ) (top_k : Nat) (thr : ℚ) :
    retrieve vecs kn sim q top_k thr =
      (faissSearch vecs q top_k).filterMap (specKeep kn sim thr) := by
  unfold retrieve
  rw [retrieveLoop_eq]
  rfl

lemma specKeep_neg {α : Type} (kn : List α) (sim : Nat → ℚ) (thr : ℚ)
    {idx : Int} (h : ¬(0 ≤ idx ∧ idx.toNat < kn.length)) :
    specKeep kn sim thr idx = none := by
  unfold specKeep
  rw [dif_neg h]

lemma specKeep_mono {α : Type} (kn : List α) (sim : Nat → ℚ) {t1 t2 : ℚ}
    (h12 : t1 ≤ t2) (idx : Int) (c : α × ℚ) :
    specKeep kn sim t2 idx = some c → specKeep kn sim t1 idx = some c := by
  unfold specKeep
  by_cases h : 0 ≤ idx ∧ idx.toNat < kn.length
  · rw [dif_pos h, dif_pos h]
    by_cases hs : t2 ≤ sim idx.toNat
    · rw [if_pos hs, if_pos (le_trans h12 hs)]
      exact id
    · rw [if_neg hs]
      intro hc
      cases hc
  · rw [dif_neg h, dif_neg h]
    intro hc
    cases hc

lemma filterMap_sublist_of_imp {β γ : Type} (f g : β → Option γ)
    (hfg : ∀ b c, g b = some c → f b = some c) :
    ∀ l : List β, (l.filterMap g).Sublist (l.filterMap f) := by
  intro l
  induction l with
  | nil => simp
  | cons b l ih =>
    rw [List.filterMap_cons, List.filterMap_cons]
    cases hg : g b with
    | none =>
      cases hf : f b with
      | none => exact ih
      | some c => exact ih.cons c
    | some c =>
      rw [hfg b c hg]
      exact ih.cons₂ c

lemma insertLe_length (le : Nat → Nat → Bool) (a : Nat) :
    ∀ l : List Nat, (insertLe le a l).length = l.length + 1 := by
  intro l
  induction l with
  | nil => rfl
  | cons b l ih =>
    rw [insertLe]
    by_cases h : le a b
    · rw [if_pos h]
      rfl
    · rw [if_neg h, List.length_cons, ih]
      rfl

lemma sortLe_length (le : Nat → Nat → Bool) :
    ∀ l : List Nat, (sortLe le l).length = l.length := by
  intro l
  induction l with
  | nil => rfl
  | cons a l ih =>
    rw [sortLe, insertLe_length, ih]
    rfl

lemma faissSearch_length_nonneg (vecs : List (List ℚ)) (q : List ℚ) (k : Nat) :
    ∃ pre : List Nat, pre.length = min k vecs.length ∧
      faissSearch vecs q k =
        pre.map Int.ofNat ++ List.replicate (k - vecs.length) (-1) := by
  unfold faissSearch
  refine ⟨_, ?_, rfl⟩
  rw [List.length_take, sortLe_length, List.length_range]

/-! ## Claims -/

/-- C10: the `_split_text` loop terminates.  Conjunct 1: the chosen split
point of a non-final iteration is at least `start + (chunk_size * 7) / 10`
(`start + 0.7 * chunk_size`, exact at the default `chunk_size = 800` where
the Python float is exactly `560.0`).  Conjunct 2: hence whenever
`chunk_overlap < (chunk_size * 7) / 10` — in particular at the defaults
`800 / 100` — the next start position strictly increases.  Conjunct 3: at
the defaults the loop terminates on every input (the fuel-exhaustion case
of the embedding is never reached). -/
theorem c10_chunker_termination :
    (∀ (text : List Char) (cs start : Nat),
        start + (cs * 7) / 10 ≤ chooseSplit text cs start) ∧
    (∀ (text : List Char) (cs ov start : Nat), ov < (cs * 7) / 10 →
        start < chooseSplit text cs start - ov) ∧
    (∀ text : List Char, (splitWindows text 800 100).isSome) := by
  refine ⟨chooseSplit_ge, ?_, ?_⟩
  · intro text cs ov start hov
    have := chooseSplit_ge text cs start
    omega
  · intro text
    unfold splitWindows
    by_cases h : text.length ≤ 800
    · rw [if_pos h]
      rfl
    · rw [if_neg h]
      exact splitLoop_isSome (by decide) _ 0 (by omega) (by omega)

/-- Witness for C10 at the default parameters and a concrete text. -/
theorem c10_chunker_termination_witness :
    0 + (800 * 7) / 10 ≤ chooseSplit [] 800 0 ∧
    0 < chooseSplit [] 800 0 - 100 ∧
    (splitWindows [] 800 100).isSome :=
  ⟨c10_chunker_termination.1 [] 800 0,
   c10_chunker_termination.2.1 [] 800 100 0 (by decide),
   c10_chunker_termination.2.2 []⟩

set_option maxRecDepth 10000

/-- C8 counterexample: an 801-character input (798 spaces, then ". x") is
longer than `chunk_size`, so the loop runs; the first iteration finds the
sentence boundary at position 798, and `text[0:798].strip()` — 798 spaces
stripped — is the EMPTY string: `_split_text` produces an empty chunk from
a non-empty input, refuting "every chunk is a non-empty string". -/
theorem c8_counterexample :
    splitText (List.replicate 798 ' ' ++ ['.', ' ', 'x']) 800 100 =
      some [[], List.replicate 100 ' ' ++ ['.', ' ', 'x']] := by
  decide

/-- C8 (amended): with the default `chunk_size = 800`, `chunk_overlap = 100`,
every chunk produced by `_split_text` has length at most `chunk_size`, and
every position of the input text is covered by some chunk's source window;
however chunks need NOT be non-empty (a mid-text window of pure whitespace
is stripped to the empty string, see the counterexample). -/
theorem c8_chunk_bounds_coverage :
    ∀ (text : List Char) (ws : List Window),
      splitWindows text 800 100 = some ws →
      splitText text 800 100 = some (ws.map (render text)) ∧
      (∀ c ∈ ws.map (render text), c.length ≤ 800) ∧
      (∀ p, p < text.length → ∃ w ∈ ws, w.1 ≤ p ∧ p < w.2.1) := by
  intro text ws h
  refine ⟨?_, ?_, ?_⟩
  · unfold splitText
    rw [h]
    rfl
  · intro c hc
    rcases List.mem_map.mp hc with ⟨w, hw, rfl⟩
    have hwidth : w.2.1 ≤ w.1 + 800 := by
      unfold splitWindows at h
      by_cases hl : text.length ≤ 800
      · rw [if_pos hl] at h
        cases h
        rcases List.mem_singleton.mp hw with rfl
        show text.length ≤ 0 + 800
        omega
      · rw [if_neg hl] at h
        exact (splitLoop_width _ _ _ h w hw).1
    exact render_length_le hwidth
  · intro p hp
    unfold splitWindows at h
    by_cases hl : text.length ≤ 800
    · rw [if_pos hl] at h
      cases h
      exact ⟨(0, text.length, false), List.mem_singleton.mpr rfl,
        Nat.zero_le _, hp⟩
    · rw [if_neg hl] at h
      exact splitLoop_cover _ _ _ h p (Nat.zero_le _) hp

/-- Witness for the amended C8 on a concrete short text. -/
theorem c8_chunk_bounds_coverage_witness :
    splitText "hi".data 800 100 =
      some ([((0 : Nat), (2 : Nat), false)].map (render "hi".data)) ∧
    (∀ c ∈ [((0 : Nat), (2 : Nat), false)].map (render "hi".data),
      c.length ≤ 800) ∧
    (∀ p, p < "hi".data.length →
      ∃ w ∈ [((0 : Nat), (2 : Nat), false)], w.1 ≤ p ∧ p < w.2.1) :=
  c8_chunk_bounds_coverage "hi".data [((0 : Nat), (2 : Nat), false)] (by decide)

/-- C1: whenever `process_json` completes with at least one chunk
(`processJson = some res`), the number of vectors added to the FAISS index
equals the number of metadata rows, and at least one row exists.  The
embedding oracle `eb` is universally quantified, so the equality holds in
particular when some (or all) batches fail and are zero-filled; the
hypothesis is the provider contract that a SUCCESSFUL response carries one
row per input of its batch. -/
theorem c1_index_metadata_rowcount :
    ∀ (eb : EmbedOracle) (files : List (String × Option (List Entry)))
      (res : BuildResult),
      (∀ b r, eb b = some r → r.length = b.length) →
      processJson eb files = some res →
      res.index.length = res.metadata.length ∧ 1 ≤ res.metadata.length := by
  intro eb files res hlen h
  exact processJson_some hlen h

/-- Witness for C1: a one-file, one-entry corpus whose single batch FAILS
(the oracle always raises); the build still completes with one zero-vector
index row and one metadata row. -/
theorem c1_index_metadata_rowcount_witness :
    processJson (fun _ => none) [("f", some [⟨"c", "", ""⟩])] =
      some ⟨[List.replicate 1536 (0 : ℚ)],
            [⟨"f", "File: f\nContent: c", "f", "", 0, 1⟩]⟩ ∧
    [List.replicate 1536 (0 : ℚ)].length =
      [(⟨"f", "File: f\nContent: c", "f", "", 0, 1⟩ : ChunkMeta)].length ∧
    1 ≤ [(⟨"f", "File: f\nContent: c", "f", "", 0, 1⟩ : ChunkMeta)].length := by
  have h1 : processJson (fun _ => none) [("f", some [⟨"c", "", ""⟩])] =
      some ⟨[List.replicate 1536 (0 : ℚ)],
            [⟨"f", "File: f\nContent: c", "f", "", 0, 1⟩]⟩ := by
    have hrows : (buildRows [("f", some [⟨"c", "", ""⟩])]).map Prod.fst =
        ["f. File: f\nContent: c"] := by decide
    have hmeta : (buildRows [("f", some [⟨"c", "", ""⟩])]).map Prod.snd =
        [⟨"f", "File: f\nContent: c", "f", "", 0, 1⟩] := by decide
    unfold processJson
    rw [if_neg (by decide), if_neg (by decide), hrows, hmeta,
      getEmbeddings_allFail ["f. File: f\nContent: c"],
      show (["f. File: f\nContent: c"] : List String).length = 1 from rfl,
      List.replicate_one]
  have h2 := c1_index_metadata_rowcount (fun _ => none)
    [("f", some [⟨"c", "", ""⟩])] _ (fun b r hr => nomatch hr) h1
  exact ⟨h1, h2.1, h2.2⟩

/-- C3: conjunct 1 — zero chunks from ingestion leave `self.index = None`
(`processJson = none`) and the subsequent `save_to_disk` raises
(`faiss.write_index(None, ...)`), so no zero-row index is ever persisted.
Conjunct 2 — a file whose parse raises is skipped: it does not change the
build outcome when the remaining files produce text.  Conjunct 3 — the
embedding oracle (hence any batch failure) never changes whether the build
completes. -/
theorem c3_empty_corpus_fatal_partial_recovered :
    (∀ (eb : EmbedOracle) (files : List (String × Option (List Entry))),
        (buildRows files).isEmpty = true →
        processJson eb files = none ∧
        saveToDisk (processJson eb files) =
          Except.error "write_index: index is None") ∧
    (∀ (eb : EmbedOracle) (fn : String)
        (rest : List (String × Option (List Entry))),
        (buildRows rest).isEmpty = false →
        processJson eb ((fn, none) :: rest) = processJson eb rest) ∧
    (∀ (eb1 eb2 : EmbedOracle) (files : List (String × Option (List Entry))),
        (processJson eb1 files).isSome = (processJson eb2 files).isSome) := by
  refine ⟨?_, ?_, ?_⟩
  · intro eb files h
    have hnone : processJson eb files = none := by
      unfold processJson
      by_cases hf : files.isEmpty
      · rw [if_pos hf]
      · rw [if_neg hf, if_pos h]
    rw [hnone]
    exact ⟨rfl, rfl⟩
  · intro eb fn rest h
    have hrest : rest.isEmpty = false := by
      cases rest with
      | nil => rw [show buildRows ([] : List (String × Option (List Entry))) = [] from rfl] at h; cases h
      | cons a l => rfl
    have hrows : buildRows ((fn, none) :: rest) = buildRows rest := by
      unfold buildRows
      rw [List.flatMap_cons]
      rfl
    unfold processJson
    rw [hrows, hrest]
    rfl
  · intro eb1 eb2 files
    unfold processJson
    by_cases hf : files.isEmpty
    · rw [if_pos hf, if_pos hf]
    · rw [if_neg hf, if_neg hf]
      by_cases hr : (buildRows files).isEmpty
      · rw [if_pos hr, if_pos hr]
      · rw [if_neg hr, if_neg hr]
        rfl

/-- Witness for C3: a concrete empty corpus (one file with zero entries), a
concrete skipped bad file in front of a good one, and two concrete oracles. -/
theorem c3_empty_corpus_fatal_partial_recovered_witness :
    (processJson (fun _ => none) [("f", some [])] = none ∧
      saveToDisk (processJson (fun _ => none) [("f", some [])]) =
        Except.error "write_index: index is None") ∧
    processJson (fun _ => none) [("bad", none), ("g", some [⟨"c", "", ""⟩])] =
      processJson (fun _ => none) [("g", some [⟨"c", "", ""⟩])] ∧
    (processJson (fun _ => none) ([] : List (String × Option (List Entry)))).isSome =
      (processJson (fun _ => some []) ([] : List (String × Option (List Entry)))).isSome :=
  ⟨c3_empty_corpus_fatal_partial_recovered.1 (fun _ => none) [("f", some [])] (by decide),
   c3_empty_corpus_fatal_partial_recovered.2.1 (fun _ => none) "bad"
     [("g", some [⟨"c", "", ""⟩])] (by decide),
   c3_empty_corpus_fatal_partial_recovered.2.2 (fun _ => none) (fun _ => some []) []⟩

/-- A provider whose model has embedding dimension 4: full batches of 16
succeed with 4-dimensional rows, anything else raises. -/
def oracle4 : EmbedOracle := fun b =>
  if b.length = 16 then some (b.map (fun _ => [1, 2, 3, 4])) else none

/-- C4 counterexample: with a model of embedding dimension 4 (first
successful call returns 4-dimensional rows) and a failing second batch,
`_get_embeddings` substitutes `np.zeros(1536)` — the hard-coded ada-002
dimension, NOT "the dimension of the first successful embedding call": the
17 input texts get 16 rows of dimension 4 and one zero row of dimension
1536. -/
theorem c4_counterexample :
    (getEmbeddings oracle4 (List.replicate 17 "t")).map List.length =
      List.replicate 16 4 ++ [1536] := by
  have e3 : getEmbeddings oracle4 ["t"] = [List.replicate 1536 (0 : ℚ)] := by
    rw [getEmbeddings, show ((["t"] : List String).drop 16) = [] from rfl,
      getEmbeddings,
      show oracle4 ((["t"] : List String).take 16) = none from rfl]
    rw [show ((["t"] : List String).take 16).length = 1 from rfl]
    rw [List.replicate_one, List.append_nil]
  have e2 : getEmbeddings oracle4 (List.replicate 17 "t") =
      List.replicate 16 ([1, 2, 3, 4] : List ℚ) ++ getEmbeddings oracle4 ["t"] := by
    rw [show List.replicate 17 "t" = "t" :: List.replicate 16 "t" from rfl,
      getEmbeddings,
      show oracle4 ((("t" : String) :: List.replicate 16 "t").take 16) =
        some (List.replicate 16 ([1, 2, 3, 4] : List ℚ)) from by decide,
      show ((("t" : String) :: List.replicate 16 "t").drop 16) = ["t"] from by decide]
  rw [e2, e3, List.map_append, List.map_replicate]
  simp [List.length_replicate]

/-- C4 (amended): a failing provider batch never propagates its exception
(`getEmbeddings` is total by construction and still yields rows when every
batch fails), and every substituted row is the zero vector of HARD-CODED
dimension 1536 — which coincides with the expected model dimension only
when that dimension is 1536 (e.g. text-embedding-ada-002).  Conjunct 1:
under total provider failure each input still yields one 1536-dimensional
zero row.  Conjunct 2: every produced row either came from a successful
provider response or is the 1536-dimensional zero vector. -/
theorem c4_zero_fill :
    (∀ texts : List String, getEmbeddings (fun _ => none) texts =
        List.replicate texts.length (List.replicate 1536 (0 : ℚ))) ∧
    (∀ (eb : EmbedOracle) (texts : List String) (v : List ℚ),
        v ∈ getEmbeddings eb texts →
        (∃ b rs, eb b = some rs ∧ v ∈ rs) ∨
          v = List.replicate 1536 (0 : ℚ)) :=
  ⟨getEmbeddings_allFail, fun _ texts v h => getEmbeddings_mem texts v h⟩

/-- Witness for the amended C4 on a concrete failing batch. -/
theorem c4_zero_fill_witness :
    List.replicate 1536 (0 : ℚ) ∈ getEmbeddings (fun _ => none) ["t"] ∧
    ((∃ b rs, (fun _ => none : EmbedOracle) b = some rs ∧
        List.replicate 1536 (0 : ℚ) ∈ rs) ∨
      List.replicate 1536 (0 : ℚ) = List.replicate 1536 (0 : ℚ)) := by
  have hmem : List.replicate 1536 (0 : ℚ) ∈ getEmbeddings (fun _ => none) ["t"] := by
    rw [c4_zero_fill.1 ["t"]]
    exact List.mem_replicate.mpr ⟨by decide, rfl⟩
  exact ⟨hmem, c4_zero_fill.2 (fun _ => none) ["t"] _ hmem⟩

/-- C2: `retrieve` equals the spec-side characterization `specKeep`,
mapped over the index search output in order: a candidate returned by the
search is kept iff (being in range) its cosine similarity is at least
`similarity_threshold`; every kept record is its metadata entry annotated
with exactly that similarity value; and `filterMap` preserves the search
order, so survivors are never re-sorted by the cosine re-score. -/
theorem c2_retrieve_filter_annotate_order :
    ∀ {α : Type} (vecs : List (List ℚ)) (kn : List α) (sim : Nat → ℚ)
      (q : List ℚ) (top_k : Nat) (thr : ℚ),
      retrieve vecs kn sim q top_k thr =
        (faissSearch vecs q top_k).filterMap (specKeep kn sim thr) := by
  intro α vecs kn sim q top_k thr
  exact retrieve_eq vecs kn sim q top_k thr

/-- C5: for a fixed query embedding, fixed index contents and fixed
`top_k`, raising the threshold yields a sublist of the lower-threshold
result, so in particular never more results. -/
theorem c5_threshold_monotone :
    ∀ {α : Type} (vecs : List (List ℚ)) (kn : List α) (sim : Nat → ℚ)
      (q : List ℚ) (top_k : Nat) (t1 t2 : ℚ), t1 ≤ t2 →
      (retrieve vecs kn sim q top_k t2).Sublist
        (retrieve vecs kn sim q top_k t1) ∧
      (retrieve vecs kn sim q top_k t2).length ≤
        (retrieve vecs kn sim q top_k t1).length := by
  intro α vecs kn sim q top_k t1 t2 h12
  have hsub : (retrieve vecs kn sim q top_k t2).Sublist
      (retrieve vecs kn sim q top_k t1) := by
    rw [retrieve_eq, retrieve_eq]
    exact filterMap_sublist_of_imp _ _ (specKeep_mono kn sim h12) _
  exact ⟨hsub, hsub.length_le⟩

/-- Witness for C5 on a concrete two-document index. -/
theorem c5_threshold_monotone_witness :
    (0 : ℚ) ≤ 1 / 2 ∧
    (retrieve [[1], [2]] ["a", "b"] (fun i => if i = 0 then 1 else 0) [0] 2
        (1 / 2)).Sublist
      (retrieve [[1], [2]] ["a", "b"] (fun i => if i = 0 then 1 else 0) [0] 2
        0) ∧
    (retrieve [[1], [2]] ["a", "b"] (fun i => if i = 0 then 1 else 0) [0] 2
        (1 / 2)).length ≤
      (retrieve [[1], [2]] ["a", "b"] (fun i => if i = 0 then 1 else 0) [0] 2
        0).length := by
  have h := c5_threshold_monotone [[1], [2]] ["a", "b"]
    (fun i => if i = 0 then 1 else 0) [0] 2 0 (1 / 2) (by norm_num)
  exact ⟨by norm_num, h.1, h.2⟩

/-- C6: conjunct 1 — `retrieve` returns at most
`min top_k (number of indexed vectors)` results.  Conjunct 2 — no result is
fabricated: each one's record is the metadata entry at some position the
index search returned.  Conjunct 3 — an out-of-range candidate
(`idx < 0` or `idx ≥ len(metadata)`) is silently skipped: the loop's result
is unchanged by it. -/
theorem c6_bounds_provenance_skip :
    ∀ {α : Type} (vecs : List (List ℚ)) (kn : List α) (sim : Nat → ℚ)
      (q : List ℚ) (top_k : Nat) (thr : ℚ),
      (retrieve vecs kn sim q top_k thr).length ≤ min top_k vecs.length ∧
      (∀ r ∈ retrieve vecs kn sim q top_k thr, ∃ i : Nat,
        (Int.ofNat i) ∈ faissSearch vecs q top_k ∧ kn.get? i = some r.1) ∧
      (∀ (idx : Int) (rest : List Int) (acc : List (α × ℚ)),
        (idx < 0 ∨ (kn.length : Int) ≤ idx) →
        retrieveLoop kn sim thr (idx :: rest) acc =
          retrieveLoop kn sim thr rest acc) := by
  intro α vecs kn sim q top_k thr
  refine ⟨?_, ?_, ?_⟩
  · rw [retrieve_eq]
    obtain ⟨pre, hpre, heq⟩ := faissSearch_length_nonneg vecs q top_k
    rw [heq, List.filterMap_append, List.length_append]
    have hrep : ∀ n : Nat, (List.replicate n (-1 : Int)).filterMap
        (specKeep kn sim thr) = [] := by
      intro n
      induction n with
      | zero => rfl
      | succ m ih =>
        rw [List.replicate_succ, List.filterMap_cons,
          specKeep_neg kn sim thr (fun hc => absurd hc.1 (by decide))]
        exact ih
    rw [hrep]
    have h1 : ((pre.map Int.ofNat).filterMap (specKeep kn sim thr)).length ≤
        (pre.map Int.ofNat).length := List.length_filterMap_le _ _
    rw [List.length_map] at h1
    simp only [List.length_nil]
    omega
  · intro r hr
    rw [retrieve_eq] at hr
    obtain ⟨idx, hidx, hsk⟩ := List.mem_filterMap.mp hr
    unfold specKeep at hsk
    by_cases h : 0 ≤ idx ∧ idx.toNat < kn.length
    · rw [dif_pos h] at hsk
      by_cases hs : thr ≤ sim idx.toNat
      · rw [if_pos hs] at hsk
        cases hsk
        refine ⟨idx.toNat, ?_, ?_⟩
        · rw [show (Int.ofNat idx.toNat) = idx from Int.toNat_of_nonneg h.1]
          exact hidx
        · exact List.get?_eq_get h.2
      · rw [if_neg hs] at hsk
        cases hsk
    · rw [dif_neg h] at hsk
      cases hsk
  · intro idx rest acc h
    rw [retrieveLoop]
    rw [dif_neg]
    intro hc
    rcases h with h | h
    · omega
    · omega

/-- Witness for C6: `top_k = 5` against a two-vector index returns both
stored records and nothing more; the provenance holds at a concrete result;
a `-1` padding label is a no-op for the loop. -/
theorem c6_bounds_provenance_skip_witness :
    (retrieve [[], []] ["a", "b"] (fun _ => 1) [] 5 0).length ≤ min 5 2 ∧
    (∃ i : Nat, (Int.ofNat i) ∈ faissSearch [[], []] [] 5 ∧
      ["a", "b"].get? i = some "a") ∧
    retrieveLoop ["a", "b"] (fun _ => (1 : ℚ)) 0 [-1] [] =
      retrieveLoop ["a", "b"] (fun _ => (1 : ℚ)) 0 [] [] := by
  have h := c6_bounds_provenance_skip [[], []] ["a", "b"] (fun _ => 1) [] 5 0
  refine ⟨h.1, ?_, h.2.2 (-1) [] [] (Or.inl (by decide))⟩
  have hmem : (("a", (1 : ℚ)) : String × ℚ) ∈
      retrieve [[], []] ["a", "b"] (fun _ => 1) [] 5 0 := by decide
  exact h.2.1 ("a", 1) hmem

/-- C7: `as_tool` is fully determined by `retrieve` at exactly `top_k = 5`
and `similarity_threshold = 0.4` (= 2/5): when no document survives it
returns exactly the fixed sentinel string — which is not the empty string —
and otherwise the formatted context block of the surviving documents. -/
theorem c7_as_tool_sentinel :
    ∀ (vecs : List (List ℚ)) (kn : List ChunkMeta) (sim : Nat → ℚ)
      (q : List ℚ),
      ((retrieve vecs kn sim q 5 (2 / 5)).isEmpty = true →
        asTool vecs kn sim q = "No relevant documents found in knowledge base." ∧
        asTool vecs kn sim q ≠ "") ∧
      ((retrieve vecs kn sim q 5 (2 / 5)).isEmpty = false →
        asTool vecs kn sim q = formatContext (retrieve vecs kn sim q 5 (2 / 5))) := by
  intro vecs kn sim q
  constructor
  · intro h
    have hs : asTool vecs kn sim q =
        "No relevant documents found in knowledge base." := by
      unfold asTool
      rw [if_pos h]
    refine ⟨hs, ?_⟩
    rw [hs]
    decide
  · intro h
    unfold asTool
    rw [if_neg ?_]
    rw [h]
    decide

/-- Witness for C7: the empty index yields zero surviving documents and the
exact sentinel. -/
theorem c7_as_tool_sentinel_witness :
    (retrieve ([] : List (List ℚ)) ([] : List ChunkMeta) (fun _ => 0) [] 5
      (2 / 5)).isEmpty = true ∧
    asTool [] [] (fun _ => 0) [] =
      "No relevant documents found in knowledge base." ∧
    asTool [] [] (fun _ => 0) [] ≠ "" := by
  have h : (retrieve ([] : List (List ℚ)) ([] : List ChunkMeta) (fun _ => 0)
      [] 5 (2 / 5)).isEmpty = true := by decide
  have h2 := (c7_as_tool_sentinel [] [] (fun _ => 0) []).1 h
  exact ⟨h, h2.1, h2.2⟩

/-- A sample metadata row. -/
def sampleMeta : ChunkMeta := ⟨"t", "x", "f", "", 0, 1⟩

/-- C9 counterexample: construction performs NO row-count consistency
check — loading a two-row index next to a one-row metadata table succeeds
(the retriever becomes Ready), refuting "a Ready retriever holds both
artifacts ... mutually consistent in row count". -/
theorem c9_counterexample :
    loadIndexAndMetadata (some [[0], [1]]) (some [sampleMeta]) =
      Except.ok ([[0], [1]], [sampleMeta]) ∧
    [[(0 : ℚ)], [1]].length ≠ [sampleMeta].length := by
  exact ⟨rfl, by decide⟩

/-- C9 (amended): construction fails fatally iff an artifact file is absent
(index checked first), and succeeds — holding both artifacts — iff both are
present; no partially-loaded state exists.  Row-count consistency is NOT
checked at load (see the counterexample); it does hold whenever the two
artifacts were persisted by one completed build, as the final conjunct
shows. -/
theorem c9_load_contract :
    (∀ m : Option (List ChunkMeta),
        loadIndexAndMetadata none m = Except.error "FAISS index not found") ∧
    (∀ i : List (List ℚ),
        loadIndexAndMetadata (some i) none =
          Except.error "Metadata file not found") ∧
    (∀ (i : List (List ℚ)) (m : List ChunkMeta),
        loadIndexAndMetadata (some i) (some m) = Except.ok (i, m)) ∧
    (∀ (eb : EmbedOracle) (files : List (String × Option (List Entry)))
        (i : List (List ℚ)) (m : List ChunkMeta),
        (∀ b r, eb b = some r → r.length = b.length) →
        saveToDisk (processJson eb files) = Except.ok (i, m) →
        loadIndexAndMetadata (some i) (some m) = Except.ok (i, m) ∧
        i.length = m.length) := by
  refine ⟨fun m => rfl, fun i => rfl, fun i m => rfl, ?_⟩
  intro eb files i m hlen hsave
  cases hpj : processJson eb files with
  | none =>
    rw [hpj] at hsave
    cases hsave
  | some res =>
    rw [hpj] at hsave
    unfold saveToDisk at hsave
    injection hsave with hsave
    injection hsave with h1 h2
    have hres := processJson_some hlen hpj
    subst h1
    subst h2
    exact ⟨rfl, hres.1⟩

/-- Witness for the amended C9 on the one-row build of the C1 witness. -/
theorem c9_load_contract_witness :
    loadIndexAndMetadata none (some [sampleMeta]) =
      Except.error "FAISS index not found" ∧
    loadIndexAndMetadata (some [[0], [1]]) none =
      Except.error "Metadata file not found" ∧
    loadIndexAndMetadata (some [[0], [1]]) (some [sampleMeta]) =
      Except.ok ([[0], [1]], [sampleMeta]) ∧
    (loadIndexAndMetadata (some [List.replicate 1536 (0 : ℚ)])
        (some [⟨"f", "File: f\nContent: c", "f", "", 0, 1⟩]) =
      Except.ok ([List.replicate 1536 (0 : ℚ)],
        [⟨"f", "File: f\nContent: c", "f", "", 0, 1⟩]) ∧
    [List.replicate 1536 (0 : ℚ)].length =
      [(⟨"f", "File: f\nContent: c", "f", "", 0, 1⟩ : ChunkMeta)].length) := by
  refine ⟨c9_load_contract.1 (some [sampleMeta]),
    c9_load_contract.2.1 [[0], [1]],
    c9_load_contract.2.2.1 [[0], [1]] [sampleMeta], ?_⟩
  refine c9_load_contract.2.2.2 (fun _ => none) [("f", some [⟨"c", "", ""⟩])]
    _ _ (fun b r hr => nomatch hr) ?_
  have hrows : (buildRows [("f", some [⟨"c", "", ""⟩])]).map Prod.fst =
      ["f. File: f\nContent: c"] := by decide
  have hmeta : (buildRows [("f", some [⟨"c", "", ""⟩])]).map Prod.snd =
      [⟨"f", "File: f\nContent: c", "f", "", 0, 1⟩] := by decide
  unfold processJson saveToDisk
  rw [if_neg (by decide), if_neg (by decide), hrows, hmeta,
    getEmbeddings_allFail ["f. File: f\nContent: c"],
    show (["f. File: f\nContent: c"] : List String).length = 1 from rfl,
    List.replicate_one]

end KB
